import Mathlib

/-! Verification of the coexpression pipeline in halflife/coexpression.py.

The development shallowly embeds the script: machine floats become
rationals, the pairwise coexpression source and the decay classification
lookup become function parameters, Python exceptions become an explicit
error type carried by Except, and tab separated files become lists of
lines.  Every definition is transcribed from the source file. -/

namespace HalfLife

/-- Python runtime failures that the script can hit: the unbound variable
reference for an unsupported species, and list index errors. -/
inductive PyErr where
  | nameError : PyErr
  | indexError : PyErr
deriving DecidableEq

/-- A CORUM complex record: parallel lists of subunit slots, one list of
candidate ids per slot, in the entrez and the uniprot namespaces.  The
source guarantees are not assumed: the lists may be misaligned. -/
structure Comp where
  entrez : List (List String)
  uniprot : List (List String)

/-- Keys of a Python dict built by inserting the elements of a list in
order: duplicates are collapsed to their first occurrence. -/
def pyDictKeys (l : List String) : List String :=
  l.foldl (fun acc k => if k ∈ acc then acc else acc ++ [k]) []

/-- The dict keys other than the protein itself: the partners the inner
loop of calculate_avg_coexpression pairs a protein with. -/
def usablePartners (members : List String) (p : String) : List String :=
  (pyDictKeys members).filter (fun q => q ≠ p)

/-- The defined pairwise scores collected by the inner loop: one query per
distinct partner, skipping pairs for which the source has no data. -/
def usableCors (coex : String → String → Option ℚ) (members : List String)
    (p : String) : List ℚ :=
  (usablePartners members p).filterMap (fun q => coex p q)

/-- calculate_avg_coexpression, lines 19 to 47 of coexpression.py: the
per protein entry of the avg_coex dict.  The dict comprehension collapses
duplicate members to one key; the inner loop skips the self pair and the
pairs with no data; an empty collection yields the marker NA, modelled as
none, otherwise np.mean, modelled as sum over length. -/
def calculate_avg_coexpression (coex : String → String → Option ℚ)
    (members : List String) (p : String) : Option ℚ :=
  let cors := usableCors coex members p
  if cors.length < 1 then none else some (cors.sum / (cors.length : ℚ))

/-- match_entrez_to_uniprot, lines 49 to 57: scan the slots for the first
one whose entrez list contains the id, and return the uniprot entry at
the aligned index.  Falling off the loop returns Python None, modelled as
ok none; a misaligned uniprot list raises IndexError, modelled as an
error result. -/
def match_entrez_to_uniprot (comp : Comp) (entrezid : String) :
    Except PyErr (Option String) :=
  match comp.entrez.findIdx? (fun slot => slot.contains entrezid) with
  | none => .ok none
  | some i =>
      match (comp.uniprot.get? i).bind
          (fun us => us.get? ((comp.entrez.getD i []).indexOf entrezid)) with
      | some u => .ok (some u)
      | none => .error PyErr.indexError

/-- One candidate tuple built inside process_corum_data: the fields of
(struc, sub, upr, coexpression, uprdef, species).  upr is Python None or
a uniprot id; the coexpression field is a float or the string NA,
modelled as Option. -/
structure Candidate where
  struc : String
  sub : String
  upr : Option String
  coex : Option ℚ
  uprdef : String
  species : String
deriving DecidableEq

instance : Inhabited Candidate := ⟨⟨"", "", none, none, "", ""⟩⟩

/-- decay_defs.get(upr, NA): the classification lookup substitutes NA
both for a missing key and for the Python None key. -/
def decayDef (decay : String → Option String) : Option String → String
  | some u => (decay u).getD "NA"
  | none => "NA"

/-- Number of tuple entries equal to the string NA, the first sort key in
get_best_from_multiple_subs.  Under Python equality a None upr and a
numeric coexpression are not equal to the string NA; the coexpression
field is NA exactly when it carries no value. -/
def naCount (c : Candidate) : Nat :=
  (if c.struc = "NA" then 1 else 0) + (if c.sub = "NA" then 1 else 0) +
    (if c.upr = some "NA" then 1 else 0) + (if c.coex = none then 1 else 0) +
    (if c.uprdef = "NA" then 1 else 0) + (if c.species = "NA" then 1 else 0)

/-- The second sort key: 1 when the coexpression field specifically is
NA, 0 otherwise. -/
def coexNa (c : Candidate) : Nat :=
  if c.coex = none then 1 else 0

/-- Strict lexicographic comparison of the two part sort key used by
possibilities.sort. -/
def keyLtP (a b : Candidate) : Prop :=
  naCount a < naCount b ∨ (naCount a = naCount b ∧ coexNa a < coexNa b)

instance (a b : Candidate) : Decidable (keyLtP a b) := by
  unfold keyLtP; infer_instance

/-- Stable ordered insertion: a new element goes after the elements with
a strictly smaller key and before the equal keyed ones. -/
def insertCand (c : Candidate) : List Candidate → List Candidate
  | [] => [c]
  | d :: ds => if keyLtP d c then d :: insertCand c ds else c :: d :: ds

/-- Stable insertion sort modelling the Python list.sort call with the
two part key. -/
def sortCands : List Candidate → List Candidate
  | [] => []
  | c :: cs => insertCand c (sortCands cs)

/-- Python str applied to the upr field: None prints as the string None. -/
def pyStr : Option String → String
  | some s => s
  | none => "None"

/-- Injective textual form of a rational, standing in for Python str on
the float average. -/
def ratStr (q : ℚ) : String :=
  toString q.num ++ "/" ++ toString q.den

/-- Python str applied to the coexpression field: the NA marker prints
as NA, a number prints as its textual form. -/
def coexStr : Option ℚ → String
  | none => "NA"
  | some q => ratStr q

/-- The stringified output row [str(item) for item in tuple]. -/
def candidateRow (c : Candidate) : List String :=
  [c.struc, c.sub, pyStr c.upr, coexStr c.coex, c.uprdef, c.species]

/-- Build the candidate tuple for one subunit id, as done both in the
single candidate branch of process_corum_data and per candidate inside
get_best_from_multiple_subs. -/
def mkCandidate (struc species : String) (comp : Comp)
    (avg : String → Option ℚ) (decay : String → Option String)
    (sub : String) : Except PyErr Candidate :=
  match match_entrez_to_uniprot comp sub with
  | .error e => .error e
  | .ok upr => .ok ⟨struc, sub, upr, avg sub, decayDef decay upr, species⟩

/-- A Python for loop collecting results, stopping at the first raised
exception. -/
def mapE (f : α → Except PyErr β) : List α → Except PyErr (List β)
  | [] => .ok []
  | x :: xs =>
      match f x with
      | .error e => .error e
      | .ok y =>
          match mapE f xs with
          | .error e => .error e
          | .ok ys => .ok (y :: ys)

/-- possibilities[0] after sorting, stringified: element zero of an
empty list raises IndexError. -/
def headRow : List Candidate → Except PyErr (List String)
  | [] => .error PyErr.indexError
  | c :: _ => .ok (candidateRow c)

/-- get_best_from_multiple_subs, lines 69 to 84: build one candidate per
id, sort by the two part key, take element zero. -/
def get_best_from_multiple_subs (struc species : String) (comp : Comp)
    (avg : String → Option ℚ) (decay : String → Option String)
    (subunits : List String) : Except PyErr (List String) :=
  match mapE (mkCandidate struc species comp avg decay) subunits with
  | .error e => .error e
  | .ok possibilities => headRow (sortCands possibilities)

/-- The per slot body of the writer loop in process_corum_data, lines 95
to 105: the single candidate branch builds the row directly, any other
slot is delegated to get_best_from_multiple_subs. -/
def subunitRow (struc species : String) (comp : Comp)
    (avg : String → Option ℚ) (decay : String → Option String)
    (subunit : List String) : Except PyErr (List String) :=
  match subunit with
  | [s] =>
      match mkCandidate struc species comp avg decay s with
      | .error e => .error e
      | .ok c => .ok (candidateRow c)
  | _ => get_best_from_multiple_subs struc species comp avg decay subunit

/-- Processing of one complex inside process_corum_data: flatten the
slots, compute the average coexpression map once for the whole complex,
and emit one row per slot. -/
def processComplex (species : String) (coexSrc : String → String → Option ℚ)
    (decay : String → Option String) (struc : String) (comp : Comp) :
    Except PyErr (List (List String)) :=
  let entrezList := comp.entrez.flatten
  let avg := calculate_avg_coexpression coexSrc entrezList
  mapE (subunitRow struc species comp avg decay) comp.entrez

/-- The observable side effects of process_corum_data, in the order they
occur: loading the CORUM database, constructing the coexpression source,
reading the decay classification file, and opening the output file for
writing. -/
inductive Event where
  | loadCorum : Event
  | loadCoex : Event
  | loadDecay : Event
  | openOutput : Event
deriving DecidableEq

/-- The external collaborators of one run: the pairwise score source, the
two decay classification tables, and the CORUM complex list keyed by
struc. -/
structure RunCtx where
  coexSrc : String → String → Option ℚ
  humanDecay : String → Option String
  mouseDecay : String → Option String
  corum : List (String × Comp)

/-- process_corum_data, lines 59 to 105.  LoadCorum and Coexpression run
first for every species.  The species dispatch then binds the decay data
for human or mouse; any other species leaves the data variable unbound
and the decay_defs comprehension raises NameError before the output
filename is even formed, so the output file is never opened.  For a
supported species the decay file is read, the output file is opened, and
the complexes are processed in order. -/
def process_corum_data (ctx : RunCtx) (species : String) :
    List Event × Except PyErr (List (List String)) :=
  if species = "human" then
    ([Event.loadCorum, Event.loadCoex, Event.loadDecay, Event.openOutput],
      match mapE (fun sc => processComplex species ctx.coexSrc ctx.humanDecay sc.1 sc.2)
          ctx.corum with
      | .error e => .error e
      | .ok rowss => .ok rowss.flatten)
  else if species = "mouse" then
    ([Event.loadCorum, Event.loadCoex, Event.loadDecay, Event.openOutput],
      match mapE (fun sc => processComplex species ctx.coexSrc ctx.mouseDecay sc.1 sc.2)
          ctx.corum with
      | .error e => .error e
      | .ok rowss => .ok rowss.flatten)
  else
    ([Event.loadCorum, Event.loadCoex], .error PyErr.nameError)

/-- The fixed header row written before the data rows. -/
def headerLine : String := "comp\tentrez\tuniprot\tavg.coex\tdef"

/-- The lines of the written result table: header then one tab joined
line per row. -/
def writeTable (rows : List (List String)) : List String :=
  headerLine :: rows.map (fun r => String.intercalate "\t" r)

/-- Python truthiness of a string: the empty string is falsy. -/
def pyTruthy (s : String) : Bool := !s.isEmpty

/-- The read comprehension of analyse_corum_data, line 112: every line is
kept only when the constant empty string guard is truthy, then stripped
and split on tabs.  The guard is the literal empty string, so nothing is
ever kept. -/
def readData (lines : List String) : List (List String) :=
  (lines.filter (fun _ => pyTruthy "")).map (fun line => line.trim.splitOn "\t")

/-- line[0], the complex id a row is grouped under. -/
def keyOf (row : List String) : String := row.getD 0 ""

/-- tuple(line[-3:-1]) for a row of at least three fields: the
coexpression value string and the classification label string. -/
def pairOf (row : List String) : String × String :=
  (row.getD (row.length - 3) "", row.getD (row.length - 2) "")

/-- The strucs dict of analyse_corum_data, lines 113 to 116: one entry
per distinct complex id in first appearance order, holding the rows of
that complex as (value, label) pairs, in table order. -/
def groupStrucs (data : List (List String)) :
    List (String × List (String × String)) :=
  (pyDictKeys (data.map keyOf)).map
    (fun k => (k, (data.filter (fun r => keyOf r = k)).map pairOf))

/-- The partition loop of lines 130 to 136: drop rows whose value field
is NA, send NED labelled values to nvals and ED labelled values to evals
in row order, ignoring any other label.  The value strings are converted
by Python float, modelled by the parameter pf. -/
def partitionVals (pf : String → ℚ) (comp : List (String × String)) :
    List ℚ × List ℚ :=
  comp.foldl
    (fun acc su =>
      if su.1 = "NA" then acc
      else if su.2 = "NED" then (acc.1 ++ [pf su.1], acc.2)
      else if su.2 = "ED" then (acc.1, acc.2 ++ [pf su.1])
      else acc)
    ([], [])

/-- The guards of lines 128 and 137: a complex of at most two rows is
skipped, and so is one whose partitions are empty or equal as lists.
The remaining complexes each contribute one trial.  The shuffle branch
is governed by the never defined rand global and is modelled in its only
well defined state, off. -/
def contributesTrial (pf : String → ℚ) (comp : List (String × String)) : Bool :=
  if comp.length ≤ 2 then false
  else if (partitionVals pf comp).1.length = 0 ∨ (partitionVals pf comp).2.length = 0
      ∨ (partitionVals pf comp).1 = (partitionVals pf comp).2 then false
  else true

/-- np.mean of a list of rationals. -/
def listMean (l : List ℚ) : ℚ := l.sum / (l.length : ℚ)

/-- The accumulation loop of lines 118 to 142: per complex, a trial when
the guards pass, and a success when additionally the mean of nvals
exceeds the mean of evals. -/
def analyseStrucs (pf : String → ℚ) :
    List (String × List (String × String)) → Nat × Nat
  | [] => (0, 0)
  | g :: gs =>
      if contributesTrial pf g.2 then
        (if listMean (partitionVals pf g.2).1 > listMean (partitionVals pf g.2).2
          then (analyseStrucs pf gs).1 + 1 else (analyseStrucs pf gs).1,
          (analyseStrucs pf gs).2 + 1)
      else analyseStrucs pf gs

/-- The exact two sided binomial test at null probability one half, as
computed by scipy binom_test(k, n): the total probability of the
outcomes whose point probability does not exceed that of k. -/
def binom_test (k n : Nat) : ℚ :=
  (((List.range (n + 1)).filter (fun j => Nat.choose n j ≤ Nat.choose n k)).map
      (fun j => ((Nat.choose n j : ℚ) / 2 ^ n))).sum

/-- The reported triple of line 143: successes, trials, and the binomial
p value of the success count. -/
def analyseReport (pf : String → ℚ)
    (strucs : List (String × List (String × String))) : Nat × Nat × ℚ :=
  let st := analyseStrucs pf strucs
  (st.1, st.2, binom_test st.1 st.2)

/-- analyse_corum_data, lines 110 to 143, over the lines of the input
file. -/
def analyse_corum_data (pf : String → ℚ) (lines : List String) : Nat × Nat × ℚ :=
  analyseReport pf (groupStrucs (readData lines))

/-- The non strict companion of the sort key comparison. -/
def keyLe (a b : Candidate) : Prop := ¬ keyLtP b a

/-- The payload of a successful Except result, with a default for the
error case, used to express mapE results as a map. -/
def okValue [Inhabited β] (e : Except PyErr β) : β :=
  match e with
  | .ok y => y
  | .error _ => default

/-- A pairwise source with no data at all, used for concrete runs. -/
def coexNone : String → String → Option ℚ := fun _ _ => none

/-- A pairwise source defined on a single ordered pair. -/
def coexPair : String → String → Option ℚ :=
  fun a b => if a = "1" ∧ b = "2" then some (1 / 2) else none

/-- A complex with one two candidate slot, fully aligned. -/
def compBoth : Comp := ⟨[["1", "2"]], [["P1", "P2"]]⟩

/-- An average coexpression map defined only on id 1. -/
def avgOne : String → Option ℚ := fun s => if s = "1" then some 1 else none

/-- A classification lookup defined only on P1. -/
def decayP1 : String → Option String :=
  fun u => if u = "P1" then some "NED" else none

/-- The fully populated candidate for id 1 in compBoth. -/
def candGood : Candidate := ⟨"c", "1", some "P1", some 1, "NED", "human"⟩

/-- The candidate for id 2 in compBoth, missing coexpression and
classification. -/
def candBad : Candidate := ⟨"c", "2", some "P2", none, "NA", "human"⟩

/-- An empty classification lookup, used for concrete runs. -/
def decayNone : String → Option String := fun _ => none

/-- A value parser for concrete runs of the significance tester. -/
def pfTwo : String → ℚ := fun s => if s = "2" then 2 else 1

/-- A constant value parser for concrete runs. -/
def pfZero : String → ℚ := fun _ => 0

/-- A complex whose second slot id has no aligned uniprot entry. -/
def compMisaligned : Comp := ⟨[["1", "2"]], [["P1"]]⟩

/-- A well formed single slot complex. -/
def compSingle : Comp := ⟨[["1"]], [["P1"]]⟩

/-- Grouped rows whose two partitions hold the same values in different
orders. -/
def compSwap : List (String × String) :=
  [("1", "NED"), ("2", "NED"), ("2", "ED"), ("1", "ED")]

/-- A grouped complex with a single row. -/
def compTiny : List (String × String) := [("1", "NED")]

/-- A grouped complex of three rows whose value fields are all NA. -/
def compAllNa : List (String × String) :=
  [("NA", "NED"), ("NA", "ED"), ("NA", "NED")]

/-- One output record row used for the round trip check. -/
def rowC6 : List String := ["c1", "1", "P1", "NA", "NED", "human"]

/-- An empty run context for concrete executions. -/
def ctx0 : RunCtx := ⟨coexNone, fun _ => none, fun _ => none, []⟩

theorem readData_nil (lines : List String) : readData lines = [] := by
  unfold readData
  have h : pyTruthy "" = false := rfl
  simp [h]

theorem partitionVals_aux_na (pf : String → ℚ) :
    ∀ comp : List (String × String), (∀ su ∈ comp, su.1 = "NA") →
      ∀ acc : List ℚ × List ℚ,
        comp.foldl
          (fun acc su =>
            if su.1 = "NA" then acc
            else if su.2 = "NED" then (acc.1 ++ [pf su.1], acc.2)
            else if su.2 = "ED" then (acc.1, acc.2 ++ [pf su.1])
            else acc)
          acc = acc
  | [], _, acc => rfl
  | su :: rest, h, acc => by
      rw [List.foldl_cons]
      have h1 : su.1 = "NA" := h su (by simp)
      rw [if_pos h1]
      exact partitionVals_aux_na pf rest (fun x hx => h x (by simp [hx])) acc

theorem partitionVals_all_na (pf : String → ℚ) (comp : List (String × String))
    (h : ∀ su ∈ comp, su.1 = "NA") : partitionVals pf comp = ([], []) := by
  unfold partitionVals
  exact partitionVals_aux_na pf comp h ([], [])

/-- C1: calculate_avg_coexpression maps each member id to the unweighted
arithmetic mean of the defined pairwise scores between that id and every
other distinct id of the membership list, skipping self pairs and no data
pairs; the value is the NA marker exactly when no usable pair exists, and
in particular a single member complex always yields NA for its member. -/
theorem c1_aggregator_mean (coex : String → String → Option ℚ)
    (members : List String) (p : String) (_hp : p ∈ members) :
    (calculate_avg_coexpression coex members p =
      if usableCors coex members p = [] then none
      else some ((usableCors coex members p).sum /
        ((usableCors coex members p).length : ℚ))) ∧
    calculate_avg_coexpression coex [p] p = none := by
  constructor
  · unfold calculate_avg_coexpression
    by_cases h : usableCors coex members p = []
    · simp [h]
    · have hlen : ¬ (usableCors coex members p).length < 1 := by
        simp [Nat.lt_one_iff, List.length_eq_zero, h]
      simp [h, hlen]
  · have hkeys : pyDictKeys [p] = [p] := by simp [pyDictKeys]
    have hpart : usablePartners [p] p = [] := by
      unfold usablePartners
      rw [hkeys]
      simp
    unfold calculate_avg_coexpression usableCors
    rw [hpart]
    rfl

/-- C1 witness: a two member list with one defined score and a single
member list, evaluated concretely. -/
theorem c1_aggregator_mean_witness :
    (calculate_avg_coexpression coexPair ["1", "2"] "1" =
      if usableCors coexPair ["1", "2"] "1" = [] then none
      else some ((usableCors coexPair ["1", "2"] "1").sum /
        ((usableCors coexPair ["1", "2"] "1").length : ℚ))) ∧
    calculate_avg_coexpression coexPair ["1"] "1" = none :=
  c1_aggregator_mean coexPair ["1", "2"] "1" (by decide)

/-- C4 (amended): a complex contributes a trial exactly when it has more
than two rows, both partitions are non empty, and the partitions are not
identical as ordered value lists; equality as multisets alone does not
exclude a complex. -/
theorem c4_trial_guard (pf : String → ℚ) (comp : List (String × String)) :
    contributesTrial pf comp = true ↔
      (2 < comp.length ∧ (partitionVals pf comp).1 ≠ [] ∧
        (partitionVals pf comp).2 ≠ [] ∧
        (partitionVals pf comp).1 ≠ (partitionVals pf comp).2) := by
  unfold contributesTrial
  split_ifs with h1 h2
  · simp only [Bool.false_eq_true, false_iff]
    intro hcon
    omega
  · simp only [Bool.false_eq_true, false_iff]
    rintro ⟨hl, hn, he, hne⟩
    rcases h2 with h | h | h
    · exact hn (List.length_eq_zero.mp h)
    · exact he (List.length_eq_zero.mp h)
    · exact hne h
  · simp only [true_iff]
    push_neg at h2
    exact ⟨by omega, fun h => h2.1 (by simp [h]), fun h => h2.2.1 (by simp [h]), h2.2.2⟩

/-- C4 counterexample: a four row complex whose NED and ED partitions
hold the same values as multisets but in different row orders passes the
guard and contributes a trial, so multiset equality does not exclude. -/
theorem c4_multiset_not_excluded :
    contributesTrial pfTwo compSwap = true ∧
    ((partitionVals pfTwo compSwap).1 : Multiset ℚ) =
      ((partitionVals pfTwo compSwap).2 : Multiset ℚ) ∧
    (partitionVals pfTwo compSwap).1 ≠ (partitionVals pfTwo compSwap).2 := by
  have h : partitionVals pfTwo compSwap = ([1, 2], [2, 1]) := by decide
  refine ⟨by decide, ?_, by rw [h]; decide⟩
  rw [h]
  exact Multiset.coe_eq_coe.mpr (List.Perm.swap 2 1 [])

/-- C5: a grouped complex with at most two rows never contributes a
trial, whatever its values and labels, and a complex all of whose value
fields are NA also contributes no trial. -/
theorem c5_small_or_all_na_excluded (pf : String → ℚ)
    (comp : List (String × String)) :
    (comp.length ≤ 2 → contributesTrial pf comp = false) ∧
    ((∀ su ∈ comp, su.1 = "NA") → contributesTrial pf comp = false) := by
  constructor
  · intro h
    unfold contributesTrial
    rw [if_pos h]
  · intro h
    have hpv := partitionVals_all_na pf comp h
    unfold contributesTrial
    by_cases hlen : comp.length ≤ 2
    · rw [if_pos hlen]
    · rw [if_neg hlen, if_pos (by rw [hpv]; left; rfl)]

/-- C5 witness: a one row complex and an all NA three row complex both
evaluate to no trial. -/
theorem c5_witness :
    contributesTrial pfZero compTiny = false ∧
    contributesTrial pfZero compAllNa = false :=
  ⟨(c5_small_or_all_na_excluded pfZero compTiny).1 (by decide),
   (c5_small_or_all_na_excluded pfZero compAllNa).2 (by decide)⟩

/-- C6: the round trip fails on the code as written.  The line filter of
analyse_corum_data is guarded by the constant empty string, which is
falsy, so reading the written table back retains no rows and the
regrouped table is empty, while the written record carries the pair
(NA, NED) that the round trip is required to reproduce. -/
theorem c6_roundtrip_broken :
    readData (writeTable [rowC6]) = [] ∧
    groupStrucs (readData (writeTable [rowC6])) = [] ∧
    pairOf rowC6 = ("NA", "NED") := by
  have h := readData_nil (writeTable [rowC6])
  exact ⟨h, by rw [h]; rfl, by decide⟩

/-- C8 (amended): an unsupported species makes process_corum_data fail
with the Python NameError from the unbound data variable, after the
complex database and the coexpression source have been loaded but before
the decay file is read and before the output file is opened; no output
file is ever opened for writing. -/
theorem c8_unsupported_species (ctx : RunCtx) (species : String)
    (h1 : species ≠ "human") (h2 : species ≠ "mouse") :
    process_corum_data ctx species =
      ([Event.loadCorum, Event.loadCoex], .error PyErr.nameError) ∧
    Event.openOutput ∉ (process_corum_data ctx species).1 ∧
    Event.loadDecay ∉ (process_corum_data ctx species).1 := by
  have h : process_corum_data ctx species =
      ([Event.loadCorum, Event.loadCoex], .error PyErr.nameError) := by
    unfold process_corum_data
    rw [if_neg h1, if_neg h2]
  exact ⟨h, by rw [h]; decide, by rw [h]; decide⟩

/-- C8 witness: the unsupported species yeast, run concretely. -/
theorem c8_unsupported_species_witness :
    process_corum_data ctx0 "yeast" =
      ([Event.loadCorum, Event.loadCoex], .error PyErr.nameError) ∧
    Event.openOutput ∉ (process_corum_data ctx0 "yeast").1 ∧
    Event.loadDecay ∉ (process_corum_data ctx0 "yeast").1 :=
  c8_unsupported_species ctx0 "yeast" (by decide) (by decide)

/-- C8 counterexample: for species yeast the run performs the complex
database load and the coexpression source load before failing, and the
failure is the NameError of an unbound variable rather than a
configuration check, refuting failure before any file input and output
begins. -/
theorem c8_io_before_failure :
    (process_corum_data ctx0 "yeast").1 ≠ [] ∧
    Event.loadCorum ∈ (process_corum_data ctx0 "yeast").1 ∧
    (process_corum_data ctx0 "yeast").2 = .error PyErr.nameError := by
  have h : process_corum_data ctx0 "yeast" =
      ([Event.loadCorum, Event.loadCoex], .error PyErr.nameError) := by
    unfold process_corum_data
    rw [if_neg (by decide : ¬ ("yeast" = "human")),
      if_neg (by decide : ¬ ("yeast" = "mouse"))]
  exact ⟨by rw [h]; decide, by rw [h]; decide, by rw [h]⟩

/-- C10: the comprehension guard of analyse_corum_data is the constant
empty string, so no line of any input file is retained, the grouped
table is empty, and the reported result is zero successes, zero trials,
and the degenerate p value one, regardless of the file contents. -/
theorem c10_dead_filter (pf : String → ℚ) (lines : List String) :
    readData lines = [] ∧ groupStrucs (readData lines) = [] ∧
      analyse_corum_data pf lines = (0, 0, 1) := by
  have h := readData_nil lines
  refine ⟨h, by rw [h]; rfl, ?_⟩
  unfold analyse_corum_data
  rw [h]
  have hg : groupStrucs ([] : List (List String)) = [] := rfl
  rw [hg]
  have hb : binom_test 0 0 = 1 := by norm_num [binom_test, List.range_succ]
  unfold analyseReport analyseStrucs
  simp [hb]

theorem analyseStrucs_counts (pf : String → ℚ)
    (strucs : List (String × List (String × String))) :
    analyseStrucs pf strucs =
      ((strucs.filter (fun g => contributesTrial pf g.2 &&
          decide (listMean (partitionVals pf g.2).1 >
            listMean (partitionVals pf g.2).2))).length,
       (strucs.filter (fun g => contributesTrial pf g.2)).length) := by
  induction strucs with
  | nil => rfl
  | cons g gs ih =>
    by_cases hc : contributesTrial pf g.2
    · by_cases hm : listMean (partitionVals pf g.2).1 >
          listMean (partitionVals pf g.2).2
      · simp [analyseStrucs, List.filter_cons, hc, hm, ih]
      · simp [analyseStrucs, List.filter_cons, hc, hm, ih]
    · simp [analyseStrucs, List.filter_cons, hc, ih]

/-- C3: the loop counts one trial per complex passing the guards and one
success exactly when the mean of the NED partition exceeds the mean of
the ED partition; the reported triple is successes, trials, and the
exact binomial p value of the success count at null one half, and for
one success in two trials that p value is one. -/
theorem c3_success_and_report (pf : String → ℚ)
    (strucs : List (String × List (String × String))) :
    analyseStrucs pf strucs =
      ((strucs.filter (fun g => contributesTrial pf g.2 &&
          decide (listMean (partitionVals pf g.2).1 >
            listMean (partitionVals pf g.2).2))).length,
       (strucs.filter (fun g => contributesTrial pf g.2)).length) ∧
    analyseReport pf strucs =
      ((analyseStrucs pf strucs).1, (analyseStrucs pf strucs).2,
        binom_test (analyseStrucs pf strucs).1 (analyseStrucs pf strucs).2) ∧
    binom_test 1 2 = 1 :=
  ⟨analyseStrucs_counts pf strucs, rfl, by norm_num [binom_test, List.range_succ]⟩

theorem keyLt_asymm {a b : Candidate} (h : keyLtP a b) : ¬ keyLtP b a := by
  unfold keyLtP at *
  omega

theorem keyLt_neg_trans {a b c : Candidate} (h1 : ¬ keyLtP b a)
    (h2 : ¬ keyLtP c b) : ¬ keyLtP c a := by
  unfold keyLtP at *
  omega

theorem mem_insertCand {x c : Candidate} {l : List Candidate} :
    x ∈ insertCand c l ↔ x = c ∨ x ∈ l := by
  induction l with
  | nil => simp [insertCand]
  | cons d ds ih =>
    unfold insertCand
    by_cases h : keyLtP d c
    · rw [if_pos h]
      simp only [List.mem_cons, ih]
      tauto
    · rw [if_neg h]
      simp [List.mem_cons]

theorem mem_sortCands {x : Candidate} {l : List Candidate} :
    x ∈ sortCands l ↔ x ∈ l := by
  induction l with
  | nil => simp [sortCands]
  | cons c cs ih => simp [sortCands, mem_insertCand, ih]

theorem pairwise_insertCand {c : Candidate} {l : List Candidate}
    (h : l.Pairwise keyLe) : (insertCand c l).Pairwise keyLe := by
  induction l with
  | nil => simp [insertCand]
  | cons d ds ih =>
    rw [List.pairwise_cons] at h
    obtain ⟨hd, hds⟩ := h
    unfold insertCand
    by_cases hk : keyLtP d c
    · rw [if_pos hk, List.pairwise_cons]
      refine ⟨fun z hz => ?_, ih hds⟩
      rcases mem_insertCand.mp hz with rfl | hzds
      · exact keyLt_asymm hk
      · exact hd z hzds
    · rw [if_neg hk, List.pairwise_cons]
      refine ⟨fun z hz => ?_, ?_⟩
      · rcases List.mem_cons.mp hz with rfl | hzds
        · exact hk
        · exact keyLt_neg_trans hk (hd z hzds)
      · rw [List.pairwise_cons]
        exact ⟨hd, hds⟩

theorem pairwise_sortCands (l : List Candidate) :
    (sortCands l).Pairwise keyLe := by
  induction l with
  | nil => simp [sortCands]
  | cons c cs ih => exact pairwise_insertCand ih

theorem sortCands_strict_min {l : List Candidate} {c : Candidate}
    (hc : c ∈ l) (hmin : ∀ d ∈ l, d ≠ c → keyLtP c d) :
    ∃ t, sortCands l = c :: t := by
  have hmem : c ∈ sortCands l := mem_sortCands.mpr hc
  cases hsl : sortCands l with
  | nil => rw [hsl] at hmem; simp at hmem
  | cons h t =>
    have hh : h ∈ l := mem_sortCands.mp (by rw [hsl]; exact List.mem_cons_self h t)
    by_cases hhc : h = c
    · exact ⟨t, by rw [hhc]⟩
    · exfalso
      have h1 : keyLtP c h := hmin h hh hhc
      rw [hsl] at hmem
      rcases List.mem_cons.mp hmem with hceq | hct
      · exact hhc hceq.symm
      · have hp := pairwise_sortCands l
        rw [hsl, List.pairwise_cons] at hp
        exact hp.1 c hct h1

theorem mapE_ok_eq_map [Inhabited β] {f : α → Except PyErr β} {l : List α}
    {r : List β} (h : mapE f l = .ok r) :
    r = l.map (fun x => okValue (f x)) ∧ ∀ x ∈ l, ∃ y, f x = .ok y := by
  induction l generalizing r with
  | nil =>
    unfold mapE at h
    injection h with h1
    subst h1
    simp
  | cons a as ih =>
    cases hfa : f a with
    | error e => simp [mapE, hfa] at h
    | ok y =>
      cases hrest : mapE f as with
      | error e => simp [mapE, hfa, hrest] at h
      | ok ys =>
        simp only [mapE, hfa, hrest] at h
        injection h with h1
        subst h1
        obtain ⟨hmap, hall⟩ := ih hrest
        refine ⟨by simp [hfa, okValue, hmap], fun z hz => ?_⟩
        rcases List.mem_cons.mp hz with rfl | hzz
        · exact ⟨y, hfa⟩
        · exact hall z hzz

theorem mapE_ok_of_forall [Inhabited β] {f : α → Except PyErr β} {l : List α}
    (h : ∀ x ∈ l, ∃ y, f x = .ok y) :
    mapE f l = .ok (l.map (fun x => okValue (f x))) := by
  induction l with
  | nil => rfl
  | cons x xs ih =>
    obtain ⟨y, hy⟩ := h x (by simp)
    have hrec := ih (fun z hz => h z (by simp [hz]))
    simp [mapE, hy, hrec, okValue]

/-- C2: when the candidate tuples of a multi candidate slot contain one
candidate with strictly fewer NA entries than every other candidate, the
resolver selects that candidate and emits its stringified row, for the
given candidate order and for any permutation of it. -/
theorem c2_resolver_strict_min (struc species : String) (comp : Comp)
    (avg : String → Option ℚ) (decay : String → Option String)
    (subs subs2 : List String) (l : List Candidate) (c : Candidate)
    (hperm : subs2.Perm subs)
    (hl : mapE (mkCandidate struc species comp avg decay) subs = .ok l)
    (hc : c ∈ l)
    (hmin : ∀ d ∈ l, d ≠ c → naCount c < naCount d) :
    get_best_from_multiple_subs struc species comp avg decay subs =
      .ok (candidateRow c) ∧
    get_best_from_multiple_subs struc species comp avg decay subs2 =
      .ok (candidateRow c) := by
  obtain ⟨hmap, hall⟩ := mapE_ok_eq_map hl
  have hminLt : ∀ d ∈ l, d ≠ c → keyLtP c d :=
    fun d hd hne => Or.inl (hmin d hd hne)
  constructor
  · unfold get_best_from_multiple_subs
    rw [hl]
    obtain ⟨t, ht⟩ := sortCands_strict_min hc hminLt
    show headRow (sortCands l) = .ok (candidateRow c)
    rw [ht]
    rfl
  · have hall2 : ∀ x ∈ subs2, ∃ y,
        mkCandidate struc species comp avg decay x = .ok y :=
      fun x hx => hall x (hperm.subset hx)
    have hl2 := mapE_ok_of_forall hall2
    have hpermC : (subs2.map
        (fun x => okValue (mkCandidate struc species comp avg decay x))).Perm l := by
      rw [hmap]
      exact hperm.map _
    unfold get_best_from_multiple_subs
    rw [hl2]
    obtain ⟨t, ht⟩ := sortCands_strict_min (hpermC.mem_iff.mpr hc)
      (fun d hd hne => hminLt d (hpermC.subset hd) hne)
    show headRow (sortCands (subs2.map
      (fun x => okValue (mkCandidate struc species comp avg decay x)))) =
        .ok (candidateRow c)
    rw [ht]
    rfl

/-- C2 witness: a two candidate slot where the first candidate has no NA
fields and the second has two, resolved in both input orders. -/
theorem c2_resolver_strict_min_witness :
    get_best_from_multiple_subs "c" "human" compBoth avgOne decayP1 ["1", "2"] =
      .ok (candidateRow candGood) ∧
    get_best_from_multiple_subs "c" "human" compBoth avgOne decayP1 ["2", "1"] =
      .ok (candidateRow candGood) :=
  c2_resolver_strict_min "c" "human" compBoth avgOne decayP1 ["1", "2"]
    ["2", "1"] [candGood, candBad] candGood (by decide) (by rfl)
    (by decide) (by decide)

theorem matchEU_error_shape {comp : Comp} {x : String} {e : PyErr}
    (h : match_entrez_to_uniprot comp x = .error e) : e = PyErr.indexError := by
  unfold match_entrez_to_uniprot at h
  split at h
  · exact absurd h (by simp)
  · split at h
    · exact absurd h (by simp)
    · injection h with h1
      exact h1.symm

theorem mkCandidate_error_shape {struc species : String} {comp : Comp}
    {avg : String → Option ℚ} {decay : String → Option String}
    {sub : String} {e : PyErr}
    (h : mkCandidate struc species comp avg decay sub = .error e) :
    e = PyErr.indexError := by
  unfold mkCandidate at h
  split at h
  · rename_i e1 hm
    injection h with h1
    subst h1
    exact matchEU_error_shape hm
  · exact absurd h (by simp)

theorem mkCandidate_error_of_matchEU {struc species : String} {comp : Comp}
    {avg : String → Option ℚ} {decay : String → Option String} {sub : String}
    (hm : match_entrez_to_uniprot comp sub = .error PyErr.indexError) :
    mkCandidate struc species comp avg decay sub = .error PyErr.indexError := by
  unfold mkCandidate
  rw [hm]

theorem mapE_error_mem {f : α → Except PyErr β} {l : List α} {e : PyErr} :
    mapE f l = .error e → ∃ x ∈ l, f x = .error e := by
  induction l with
  | nil => intro h; exact absurd h (by simp [mapE])
  | cons a as ih =>
    intro h
    cases hfa : f a with
    | error e1 =>
      simp only [mapE, hfa] at h
      injection h with h1
      exact ⟨a, by simp, by rw [hfa, h1]⟩
    | ok y =>
      cases hrest : mapE f as with
      | error e1 =>
        simp only [mapE, hfa, hrest] at h
        injection h with h1
        obtain ⟨x, hx, hfx⟩ := ih (by rw [hrest, h1])
        exact ⟨x, by simp [hx], hfx⟩
      | ok ys => simp [mapE, hfa, hrest] at h

theorem mapE_error_of_mem (f : α → Except PyErr β) (x : α)
    (hfx : f x = .error PyErr.indexError) (l : List α) :
    x ∈ l → (∀ y ∈ l, ∀ e, f y = .error e → e = PyErr.indexError) →
    mapE f l = .error PyErr.indexError := by
  induction l with
  | nil => intro hx _; simp at hx
  | cons a as ih =>
    intro hx hall
    cases hfa : f a with
    | error e =>
      have he := hall a (by simp) e hfa
      subst he
      simp [mapE, hfa]
    | ok y =>
      have hxas : x ∈ as := by
        rcases List.mem_cons.mp hx with rfl | h2
        · rw [hfa] at hfx
          exact absurd hfx (by simp)
        · exact h2
      have hrec := ih hxas (fun y hy => hall y (by simp [hy]))
      simp [mapE, hfa, hrec]

theorem headRow_error_shape {l : List Candidate} {e : PyErr}
    (h : headRow l = .error e) : e = PyErr.indexError := by
  cases l with
  | nil =>
    unfold headRow at h
    injection h with h1
    exact h1.symm
  | cons c cs => exact absurd h (by simp [headRow])

theorem get_best_error_shape {struc species : String} {comp : Comp}
    {avg : String → Option ℚ} {decay : String → Option String}
    {subunits : List String} {e : PyErr}
    (h : get_best_from_multiple_subs struc species comp avg decay subunits =
      .error e) : e = PyErr.indexError := by
  unfold get_best_from_multiple_subs at h
  split at h
  · rename_i e1 hm
    injection h with h1
    subst h1
    obtain ⟨x, _, hfx⟩ := mapE_error_mem hm
    exact mkCandidate_error_shape hfx
  · exact headRow_error_shape h

theorem subunitRow_error_shape {struc species : String} {comp : Comp}
    {avg : String → Option ℚ} {decay : String → Option String}
    {slot : List String} {e : PyErr}
    (h : subunitRow struc species comp avg decay slot = .error e) :
    e = PyErr.indexError := by
  unfold subunitRow at h
  split at h
  · split at h
    · rename_i e1 hm
      injection h with h1
      subst h1
      exact mkCandidate_error_shape hm
    · exact absurd h (by simp)
  · exact get_best_error_shape h

theorem subunitRow_error_of_unresolved {struc species : String} {comp : Comp}
    {avg : String → Option ℚ} {decay : String → Option String}
    {slot : List String} {id : String} (hid : id ∈ slot)
    (hm : match_entrez_to_uniprot comp id = .error PyErr.indexError) :
    subunitRow struc species comp avg decay slot = .error PyErr.indexError := by
  match slot, hid with
  | [s], hid =>
    have hs : id = s := by simpa using hid
    subst hs
    show (match mkCandidate struc species comp avg decay id with
      | Except.error e => (Except.error e : Except PyErr (List String))
      | Except.ok c => Except.ok (candidateRow c)) = .error PyErr.indexError
    rw [mkCandidate_error_of_matchEU hm]
  | a :: b :: rest, hid =>
    show get_best_from_multiple_subs struc species comp avg decay
        (a :: b :: rest) = .error PyErr.indexError
    unfold get_best_from_multiple_subs
    rw [mapE_error_of_mem _ id (mkCandidate_error_of_matchEU hm) _ hid
      (fun y _ e he => mkCandidate_error_shape he)]

/-- C7: a primary id occurring in a slot of a complex that cannot be
resolved to a secondary id through the parallel lists makes the builder
fail for the whole complex, emitting no rows at all rather than a row
with a substituted placeholder; by contrast a resolvable id whose
secondary id is simply absent from the classification source yields a
normal row carrying NA in the classification field. -/
theorem c7_unresolved_fails_loudly (species : String)
    (coexSrc : String → String → Option ℚ) (decay : String → Option String)
    (struc : String) (comp : Comp) :
    (∀ slot ∈ comp.entrez, ∀ id ∈ slot,
        match_entrez_to_uniprot comp id = .error PyErr.indexError →
        processComplex species coexSrc decay struc comp =
          .error PyErr.indexError) ∧
    (∀ s u, match_entrez_to_uniprot comp s = .ok (some u) → decay u = none →
        subunitRow struc species comp
            (calculate_avg_coexpression coexSrc comp.entrez.flatten) decay [s] =
          .ok [struc, s, u,
            coexStr (calculate_avg_coexpression coexSrc comp.entrez.flatten s),
            "NA", species]) := by
  constructor
  · intro slot hslot id hid hm
    show mapE (subunitRow struc species comp
      (calculate_avg_coexpression coexSrc comp.entrez.flatten) decay)
        comp.entrez = .error PyErr.indexError
    exact mapE_error_of_mem _ slot
      (subunitRow_error_of_unresolved hid hm) _ hslot
      (fun y _ e he => subunitRow_error_shape he)
  · intro s u hm hd
    show (match mkCandidate struc species comp
        (calculate_avg_coexpression coexSrc comp.entrez.flatten) decay s with
      | Except.error e => (Except.error e : Except PyErr (List String))
      | Except.ok c => Except.ok (candidateRow c)) = _
    unfold mkCandidate
    rw [hm]
    simp [candidateRow, decayDef, pyStr, hd]

/-- C7 witness: a complex whose uniprot list is shorter than its entrez
slot, processed concretely: the whole complex processing fails. -/
theorem c7_unresolved_fails_loudly_witness :
    processComplex "human" coexNone decayNone "c" compMisaligned =
      .error PyErr.indexError :=
  (c7_unresolved_fails_loudly "human" coexNone decayNone "c" compMisaligned).1
    ["1", "2"] (by decide) "2" (by decide) (by rfl)

theorem mapE_ok_mem {f : α → Except PyErr β} {l : List α} {r : List β}
    (h : mapE f l = .ok r) : ∀ y ∈ r, ∃ x ∈ l, f x = .ok y := by
  induction l generalizing r with
  | nil =>
    unfold mapE at h
    injection h with h1
    subst h1
    simp
  | cons a as ih =>
    cases hfa : f a with
    | error e => simp [mapE, hfa] at h
    | ok y0 =>
      cases hrest : mapE f as with
      | error e => simp [mapE, hfa, hrest] at h
      | ok ys =>
        simp only [mapE, hfa, hrest] at h
        injection h with h1
        subst h1
        intro y hy
        rcases List.mem_cons.mp hy with rfl | hys
        · exact ⟨a, by simp, hfa⟩
        · obtain ⟨x, hx, hfx⟩ := ih hrest y hys
          exact ⟨x, by simp [hx], hfx⟩

theorem subunitRow_ok_row {struc species : String} {comp : Comp}
    {avg : String → Option ℚ} {decay : String → Option String}
    {slot : List String} {r : List String}
    (h : subunitRow struc species comp avg decay slot = .ok r) :
    ∃ c : Candidate, r = candidateRow c := by
  unfold subunitRow at h
  split at h
  · split at h
    · exact absurd h (by simp)
    · rename_i c hm
      injection h with h1
      exact ⟨c, h1.symm⟩
  · unfold get_best_from_multiple_subs at h
    split at h
    · exact absurd h (by simp)
    · rename_i poss hposs
      cases hs : sortCands poss with
      | nil => rw [hs] at h; exact absurd h (by simp [headRow])
      | cons c cs =>
        rw [hs] at h
        unfold headRow at h
        injection h with h1
        exact ⟨c, h1.symm⟩

/-- C9: every row emitted by the builder for a complex carries, in its
coexpression column, either the NA marker or the textual form of a
rational number, never anything produced by an unguarded division: the
empty pairs branch of the aggregator yields NA. -/
theorem c9_rows_na_or_rational (species : String)
    (coexSrc : String → String → Option ℚ) (decay : String → Option String)
    (struc : String) (comp : Comp) (rows : List (List String))
    (h : processComplex species coexSrc decay struc comp = .ok rows) :
    ∀ r ∈ rows, r.getD 3 "" = "NA" ∨ ∃ q : ℚ, r.getD 3 "" = ratStr q := by
  intro r hr
  have h2 : mapE (subunitRow struc species comp
      (calculate_avg_coexpression coexSrc comp.entrez.flatten) decay)
        comp.entrez = .ok rows := h
  obtain ⟨slot, _, hrow⟩ := mapE_ok_mem h2 r hr
  obtain ⟨c, rfl⟩ := subunitRow_ok_row hrow
  cases hc : c.coex with
  | none =>
    left
    simp [candidateRow, coexStr, hc]
  | some q =>
    right
    exact ⟨q, by simp [candidateRow, coexStr, hc]⟩

/-- C9 witness: a fully resolvable one slot complex with no pairwise
data, whose single emitted row carries NA in the coexpression column. -/
theorem c9_rows_na_or_rational_witness :
    (["c", "1", "P1", "NA", "NA", "human"] : List String).getD 3 "" = "NA" ∨
      ∃ q : ℚ, (["c", "1", "P1", "NA", "NA", "human"] : List String).getD 3 "" =
        ratStr q :=
  c9_rows_na_or_rational "human" coexNone decayNone "c" compSingle
    [["c", "1", "P1", "NA", "NA", "human"]] (by rfl)
    ["c", "1", "P1", "NA", "NA", "human"] (by decide)

end HalfLife
